import Mathlib

/-!
Verification development for the reference odometry node
(`ros/catkin_ws/src/odometry/src/reference_odometry.py`).

The geometric core of the node is embedded shallowly over the reals:
quaternions and 3-vectors are records of real components, homogeneous
rigid transforms are 4x4 real matrices, and the two conversion helpers of
`tf.transformations` that the node calls (`quaternion_matrix` and
`quaternion_from_matrix`) are translated line by line, including their
internal epsilon test and branch selection.  Floating point rounding is
the only idealisation: all arithmetic is exact real arithmetic.

The stateful publisher loop is embedded as a pure transition function
over the mutable fields of the `OdometryPublisher` object; the obvious
textual slips of the Python file (the undefined names `ux_idx` and
`this`, and the unbalanced parenthesis on the twist line) are repaired to
the only possible referents (`aux_idx`, `self`), while every semantic
decision of the code is kept as written - in particular `pose2np`
returning the identity matrix for a `PoseStamped` argument, and the
angular twist being rebuilt as `(0, 0, wz)`.
-/

namespace RefOdometry

noncomputable section

/-- A 3-vector of real components (models `geometry_msgs` `Vector3` /
`Point` in exact arithmetic). -/
structure Vec3 where
  x : ℝ
  y : ℝ
  z : ℝ

/-- A quaternion in the scalar-last `(x, y, z, w)` convention used by ROS
and by `tf.transformations`. -/
structure Quat where
  x : ℝ
  y : ℝ
  z : ℝ
  w : ℝ

/-- Squared norm of a quaternion, `numpy.dot(q, q)` for the 4-array. -/
def normSq (q : Quat) : ℝ :=
  q.x * q.x + q.y * q.y + q.z * q.z + q.w * q.w

/-- Componentwise negation of a quaternion; `q` and `qneg q` denote the
same rotation. -/
def qneg (q : Quat) : Quat :=
  ⟨-q.x, -q.y, -q.z, -q.w⟩

/-- The identity quaternion `(0, 0, 0, 1)`. -/
def idQuat : Quat := ⟨0, 0, 0, 1⟩

/-- Translation of `tf.transformations.quaternion_multiply(q1, q0)`:
the Hamilton product with the first argument on the left, components in
scalar-last order. -/
def quaternion_multiply (q1 q0 : Quat) : Quat :=
  ⟨q1.x * q0.w + q1.y * q0.z - q1.z * q0.y + q1.w * q0.x,
   -q1.x * q0.z + q1.y * q0.w + q1.z * q0.x + q1.w * q0.y,
   q1.x * q0.y - q1.y * q0.x + q1.z * q0.w + q1.w * q0.z,
   -q1.x * q0.x - q1.y * q0.y - q1.z * q0.z + q1.w * q0.w⟩

/-- Translation of `tf.transformations.quaternion_conjugate`. -/
def quaternion_conjugate (q : Quat) : Quat :=
  ⟨-q.x, -q.y, -q.z, q.w⟩

/-- The `_EPS` constant of `tf.transformations`:
`numpy.finfo(float).eps * 4.0 = 2 ^ (-50)`. -/
def _EPS : ℝ := 4 * (2 : ℝ) ^ (-52 : ℤ)

/-- The quaternion rescaled to unit norm, with the same epsilon guard as
`quaternion_matrix`: inputs of squared norm below `_EPS` stand for the
identity rotation. -/
def unitize (q : Quat) : Quat :=
  if normSq q < _EPS then ⟨0, 0, 0, 1⟩
  else ⟨q.x / Real.sqrt (normSq q), q.y / Real.sqrt (normSq q),
        q.z / Real.sqrt (normSq q), q.w / Real.sqrt (normSq q)⟩

/-- The homogeneous rigid-transform matrix with rotation block given by
the (homogeneous quadratic) rotation form of the quaternion `q` and
translation column `v`.  For a unit quaternion this is exactly the
rotation matrix of `q`; it is the normal form in which all algebraic
lemmas below are stated. -/
def homog (q : Quat) (v : Vec3) : Matrix (Fin 4) (Fin 4) ℝ :=
  !![q.w * q.w + q.x * q.x - q.y * q.y - q.z * q.z,
       2 * (q.x * q.y - q.z * q.w), 2 * (q.x * q.z + q.y * q.w), v.x;
     2 * (q.x * q.y + q.z * q.w),
       q.w * q.w - q.x * q.x + q.y * q.y - q.z * q.z,
       2 * (q.y * q.z - q.x * q.w), v.y;
     2 * (q.x * q.z - q.y * q.w), 2 * (q.y * q.z + q.x * q.w),
       q.w * q.w - q.x * q.x - q.y * q.y + q.z * q.z, v.z;
     0, 0, 0, 1]

/-- Translation of `tf.transformations.quaternion_matrix`: squared norm
below `_EPS` yields the identity, otherwise the quaternion is scaled by
`sqrt(2 / nq)` and the matrix is assembled from its outer product. -/
def quaternion_matrix (q : Quat) : Matrix (Fin 4) (Fin 4) ℝ :=
  let nq := normSq q
  if nq < _EPS then 1
  else
    let s := Real.sqrt (2 / nq)
    let x := s * q.x
    let y := s * q.y
    let z := s * q.z
    let w := s * q.w
    !![1 - y * y - z * z, x * y - z * w, x * z + y * w, 0;
       x * y + z * w, 1 - x * x - z * z, y * z - x * w, 0;
       x * z - y * w, y * z + x * w, 1 - x * x - y * y, 0;
       0, 0, 0, 1]

/-- Models the slice assignment `a[:3, :3] = qmat[:3, :3]` performed on
`a = numpy.eye(4)`: the rotation block is copied, the last row and
column keep their identity values. -/
def embedRot (qmat : Matrix (Fin 4) (Fin 4) ℝ) : Matrix (Fin 4) (Fin 4) ℝ :=
  !![qmat 0 0, qmat 0 1, qmat 0 2, 0;
     qmat 1 0, qmat 1 1, qmat 1 2, 0;
     qmat 2 0, qmat 2 1, qmat 2 2, 0;
     0, 0, 0, 1]

/-- Models the slice assignment `a[:3, 3] = [x, y, z]`. -/
def withTranslation (a : Matrix (Fin 4) (Fin 4) ℝ) (x y z : ℝ) :
    Matrix (Fin 4) (Fin 4) ℝ :=
  !![a 0 0, a 0 1, a 0 2, x;
     a 1 0, a 1 1, a 1 2, y;
     a 2 0, a 2 1, a 2 2, z;
     a 3 0, a 3 1, a 3 2, a 3 3]

/-- A `geometry_msgs/Pose`: position plus orientation quaternion. -/
structure Pose where
  position : Vec3
  orientation : Quat

/-- A `geometry_msgs/Transform`: translation plus rotation quaternion. -/
structure Transform where
  translation : Vec3
  rotation : Quat

/-- The `PoseStamped` object the node stores as its latched reference:
the fields the code actually writes into it (`header.frame_id`,
`child_frame_id`, a translation and a rotation).  It is neither a `Pose`
nor a `Transform`, which is what matters for `pose2np`. -/
structure PoseStamped where
  frame_id : String
  child_frame_id : String
  translation : Vec3
  rotation : Quat

/-- The possible runtime types of an argument handed to `pose2np` in
this program: `Pose`, `Transform`, or the latched `PoseStamped`. -/
inductive RosMsg where
  | pose (p : Pose)
  | transform (t : Transform)
  | poseStamped (s : PoseStamped)

/-- Translation of `pose2np`: start from `numpy.eye(4)`; if the argument
is a `Pose`, copy the rotation block of `quaternion_matrix` and the
position; if it is a `Transform`, overwrite the whole matrix with
`quaternion_matrix` and set the translation; any other object (such as
the latched `PoseStamped`) falls through both `isinstance` tests and the
identity matrix is returned. -/
def pose2np : RosMsg → Matrix (Fin 4) (Fin 4) ℝ
  | .pose p =>
      withTranslation (embedRot (quaternion_matrix p.orientation))
        p.position.x p.position.y p.position.z
  | .transform t =>
      withTranslation (quaternion_matrix t.rotation)
        t.translation.x t.translation.y t.translation.z
  | .poseStamped _ => 1

/-- The `else` branch of `tf.transformations.quaternion_from_matrix` for
a cyclic index triple `(i, j, k)`:
`t = M[i,i] - (M[j,j] + M[k,k]) + M[3,3]`, `q[i] = t`,
`q[j] = M[i,j] + M[j,i]`, `q[k] = M[k,i] + M[i,k]`,
`q[3] = M[k,j] - M[j,k]`, all scaled by `0.5 / sqrt(t * M[3,3])`. -/
def qfmElse (M : Matrix (Fin 4) (Fin 4) ℝ) (i j k : Fin 4) : Quat :=
  let t := M i i - (M j j + M k k) + M 3 3
  let s := 0.5 / Real.sqrt (t * M 3 3)
  let f : Fin 4 → ℝ := fun m =>
    if m = i then t * s
    else if m = j then (M i j + M j i) * s
    else if m = k then (M k i + M i k) * s
    else (M k j - M j k) * s
  ⟨f 0, f 1, f 2, f 3⟩

/-- Translation of `tf.transformations.quaternion_from_matrix`: if the
full trace exceeds `M[3,3]` the quaternion is read off the antisymmetric
part; otherwise the index triple starting at the largest rotation
diagonal entry is selected exactly as in the source (two successive
comparisons) and the corresponding `else`-branch formula is applied. -/
def quaternion_from_matrix (M : Matrix (Fin 4) (Fin 4) ℝ) : Quat :=
  let t := M 0 0 + M 1 1 + M 2 2 + M 3 3
  if M 3 3 < t then
    ⟨(M 2 1 - M 1 2) * (0.5 / Real.sqrt (t * M 3 3)),
     (M 0 2 - M 2 0) * (0.5 / Real.sqrt (t * M 3 3)),
     (M 1 0 - M 0 1) * (0.5 / Real.sqrt (t * M 3 3)),
     t * (0.5 / Real.sqrt (t * M 3 3))⟩
  else if M 0 0 < M 1 1 then
    if M 1 1 < M 2 2 then qfmElse M 2 0 1 else qfmElse M 1 2 0
  else if M 0 0 < M 2 2 then qfmElse M 2 0 1
  else qfmElse M 0 1 2

/-- Translation of `np2trf`: reads the translation column and extracts
the quaternion with `quaternion_from_matrix` (the source mutates an out
parameter; the embedding returns the resulting `Transform`). -/
def np2trf (a : Matrix (Fin 4) (Fin 4) ℝ) : Transform :=
  ⟨⟨a 0 3, a 1 3, a 2 3⟩, quaternion_from_matrix a⟩

/-- Translation of `np2pose`, the `Pose` analogue of `np2trf`. -/
def np2pose (a : Matrix (Fin 4) (Fin 4) ℝ) : Pose :=
  ⟨⟨a 0 3, a 1 3, a 2 3⟩, quaternion_from_matrix a⟩

/-- The general matrix inverse `numpy.linalg.inv` in exact real
arithmetic. -/
def np_linalg_inv (a : Matrix (Fin 4) (Fin 4) ℝ) : Matrix (Fin 4) (Fin 4) ℝ :=
  a⁻¹

/-- Translation of `transform_between_poses`:
`g = inv(pose2np(pb)) * pose2np(pf)` packed into a `Transform`. -/
def transform_between_poses (pb pf : RosMsg) : Transform :=
  let g_sb := pose2np pb
  let g_sf := pose2np pf
  let g := np_linalg_inv g_sb * g_sf
  np2trf g

/-- Translation of `transform_vector`: the 3-vector is lifted to the
pure quaternion `(v, 0)` and conjugated by the rotation quaternion of
the transform, in the direction selected by `inverse`; only the first
three components are returned. -/
def transform_vector (t : Transform) (v1 : Vec3) (inverse : Bool) : Vec3 :=
  let q1 := t.rotation
  let q2 : Quat := ⟨v1.x, v1.y, v1.z, 0⟩
  if inverse then
    let r := quaternion_multiply (quaternion_conjugate q1)
      (quaternion_multiply q2 q1)
    ⟨r.x, r.y, r.z⟩
  else
    let r := quaternion_multiply (quaternion_multiply q1 q2)
      (quaternion_conjugate q1)
    ⟨r.x, r.y, r.z⟩

/-- A `geometry_msgs/Twist`: linear and angular velocity. -/
structure Twist where
  linear : Vec3
  angular : Vec3

/-- The mutable fields of the `OdometryPublisher` object that the
callback and the main loop share. -/
structure EngineState where
  model_state : Option Pose
  model_twist : Option Twist
  initial_state : Option PoseStamped

/-- The messages the main loop sends out on one iteration: the one-shot
static reference announcement, the per-sample transform broadcast, and
the odometry message (its pose is the broadcast transform, its twist the
rebuilt body-frame twist). -/
inductive Event where
  | staticTransform (t : PoseStamped)
  | transformBroadcast (tt : Transform)
  | odometry (rel : Transform) (tw : Twist)

/-- The `PoseStamped` the loop latches from the first observed model
state (frames `world` and `odom_true`, carrying the observed pose). -/
def latchOf (ms : Pose) : PoseStamped :=
  ⟨"world", "odom_true", ms.position, ms.orientation⟩

/-- One iteration of the `while` loop of `OdometryPublisher.main`, given
the current latched reference and the sample currently held in
`model_state` / `model_twist` (or `none` before the first callback).
The body is two sequential `if` statements (the second is not an
`elif`), unfolded here into the four resulting paths: the first `if`
latches the reference and sends the static transform when nothing is
latched and a sample is available; the second `if` then also runs on
that same iteration, broadcasting
`transform_between_poses(initial_state, model_state)` - the latched
`PoseStamped` being handed to `pose2np` - and publishing the odometry
message whose linear twist is the world velocity rotated into the body
frame and whose angular twist is `(0, 0, wz)`. -/
def loopIter (init : Option PoseStamped) (sample : Option (Pose × Twist)) :
    Option PoseStamped × List Event :=
  match init, sample with
  | none, none => (none, [])
  | some p, none => (some p, [])
  | none, some (ms, mtw) =>
      let t := latchOf ms
      let tt := transform_between_poses (.poseStamped t) (.pose ms)
      let tr : Transform := ⟨⟨0, 0, 0⟩, ms.orientation⟩
      let vb := transform_vector tr mtw.linear true
      (some t,
        [Event.staticTransform t, Event.transformBroadcast tt,
         Event.odometry tt ⟨vb, ⟨0, 0, mtw.angular.z⟩⟩])
  | some p, some (ms, mtw) =>
      let tt := transform_between_poses (.poseStamped p) (.pose ms)
      let tr : Transform := ⟨⟨0, 0, 0⟩, ms.orientation⟩
      let vb := transform_vector tr mtw.linear true
      (some p,
        [Event.transformBroadcast tt,
         Event.odometry tt ⟨vb, ⟨0, 0, mtw.angular.z⟩⟩])

/-- A run of the main loop: one entry of the list per iteration, holding
the sample visible in `model_state` / `model_twist` at that iteration. -/
def run : Option PoseStamped → List (Option (Pose × Twist)) →
    Option PoseStamped × List Event
  | init, [] => (init, [])
  | init, s :: rest =>
      let step := loopIter init s
      let tail := run step.1 rest
      (tail.1, step.2 ++ tail.2)

/-- The first sample observed during a run, if any. -/
def firstObs : List (Option (Pose × Twist)) → Option Pose
  | [] => none
  | none :: rest => firstObs rest
  | some (ms, _) :: _ => some ms

/-- The static reference announcements among a list of events. -/
def staticEvts (evts : List Event) : List PoseStamped :=
  evts.filterMap fun e =>
    match e with
    | .staticTransform t => some t
    | _ => none

/-- The angular twists of the odometry messages among a list of
events. -/
def odomAngulars (evts : List Event) : List Vec3 :=
  evts.filterMap fun e =>
    match e with
    | .odometry _ tw => some tw.angular
    | _ => none

/-- A `gazebo_msgs/ModelStates` message: parallel lists of body names,
poses and twists. -/
structure ModelStates where
  name : List String
  pose : List Pose
  twist : List Twist

/-- The failure modes of the subscriber callback: the configured body
name missing from the sample batch (the `list.index` lookup raising), or
a parallel list being too short. -/
inductive CallbackError where
  | bodyNotFound
  | indexError
deriving DecidableEq

/-- Translation of `OdometryPublisher.callback`: look up `puzzlebot`
among the body names; on failure the exception propagates before any
field is written, so the state is returned unchanged together with the
error; on success `model_state` and then `model_twist` are updated from
the parallel lists. -/
def callback (s : EngineState) (data : ModelStates) :
    EngineState × Option CallbackError :=
  match data.name.indexOf? "puzzlebot" with
  | none => (s, some .bodyNotFound)
  | some i =>
      match data.pose[i]? with
      | none => (s, some .indexError)
      | some p =>
          match data.twist[i]? with
          | none => ({ s with model_state := some p }, some .indexError)
          | some tw =>
              ({ s with model_state := some p, model_twist := some tw },
               none)

/-- Componentwise sum of 3-vectors. -/
def vadd (a b : Vec3) : Vec3 :=
  ⟨a.x + b.x, a.y + b.y, a.z + b.z⟩

/-- Componentwise negation of a 3-vector. -/
def vneg (a : Vec3) : Vec3 :=
  ⟨-a.x, -a.y, -a.z⟩

/-- Action of the rotation block of `homog q` on a 3-vector. -/
def rgApp (q : Quat) (v : Vec3) : Vec3 :=
  ⟨(q.w * q.w + q.x * q.x - q.y * q.y - q.z * q.z) * v.x +
     2 * (q.x * q.y - q.z * q.w) * v.y + 2 * (q.x * q.z + q.y * q.w) * v.z,
   2 * (q.x * q.y + q.z * q.w) * v.x +
     (q.w * q.w - q.x * q.x + q.y * q.y - q.z * q.z) * v.y +
     2 * (q.y * q.z - q.x * q.w) * v.z,
   2 * (q.x * q.z - q.y * q.w) * v.x + 2 * (q.y * q.z + q.x * q.w) * v.y +
     (q.w * q.w - q.x * q.x - q.y * q.y + q.z * q.z) * v.z⟩

lemma _EPS_pos : 0 < _EPS := by
  rw [_EPS]; positivity

lemma _EPS_lt_one : _EPS < 1 := by
  rw [_EPS]
  norm_num

lemma homog_id (v : Vec3) (h : v = ⟨0, 0, 0⟩) : homog ⟨0, 0, 0, 1⟩ v = 1 := by
  subst h
  ext i j
  fin_cases i <;> fin_cases j <;>
    simp [homog, Matrix.one_apply, Matrix.vecHead, Matrix.vecTail]

lemma homog_qneg (q : Quat) (v : Vec3) : homog (qneg q) v = homog q v := by
  ext i j
  fin_cases i <;> fin_cases j <;>
    simp [homog, qneg, Matrix.vecHead, Matrix.vecTail]

lemma normSq_qmul (a b : Quat) :
    normSq (quaternion_multiply a b) = normSq a * normSq b := by
  simp only [normSq, quaternion_multiply]
  ring

lemma normSq_qconj (q : Quat) : normSq (quaternion_conjugate q) = normSq q := by
  simp only [normSq, quaternion_conjugate]
  ring

lemma normSq_qneg (q : Quat) : normSq (qneg q) = normSq q := by
  simp only [normSq, qneg]
  ring

lemma unitize_unit_pre (q : Quat) (h : ¬ normSq q < _EPS) :
    normSq (⟨q.x / Real.sqrt (normSq q), q.y / Real.sqrt (normSq q),
        q.z / Real.sqrt (normSq q), q.w / Real.sqrt (normSq q)⟩ : Quat) = 1 := by
  have hnq : 0 < normSq q := lt_of_lt_of_le _EPS_pos (not_lt.1 h)
  have hr : Real.sqrt (normSq q) * Real.sqrt (normSq q) = normSq q :=
    Real.mul_self_sqrt hnq.le
  have hne : normSq q ≠ 0 := hnq.ne.symm
  simp only [normSq, div_mul_div_comm] at hr hne ⊢
  rw [hr]
  field_simp

lemma unitize_unit (q : Quat) : normSq (unitize q) = 1 := by
  rw [unitize]
  by_cases h : normSq q < _EPS
  · rw [if_pos h]
    simp [normSq]
  · rw [if_neg h]
    exact unitize_unit_pre q h

lemma unitize_of_unit (q : Quat) (h : normSq q = 1) : unitize q = q := by
  rw [unitize, if_neg (by rw [h]; exact not_lt.2 _EPS_lt_one.le), h]
  simp [Real.sqrt_one]

lemma scaled_matrix_eq_homog (c : ℝ) (u : Quat) (hc : c * c = 2)
    (hu : normSq u = 1) :
    !![1 - c * u.y * (c * u.y) - c * u.z * (c * u.z),
         c * u.x * (c * u.y) - c * u.z * (c * u.w),
         c * u.x * (c * u.z) + c * u.y * (c * u.w), 0;
       c * u.x * (c * u.y) + c * u.z * (c * u.w),
         1 - c * u.x * (c * u.x) - c * u.z * (c * u.z),
         c * u.y * (c * u.z) - c * u.x * (c * u.w), 0;
       c * u.x * (c * u.z) - c * u.y * (c * u.w),
         c * u.y * (c * u.z) + c * u.x * (c * u.w),
         1 - c * u.x * (c * u.x) - c * u.y * (c * u.y), 0;
       0, 0, 0, 1] = homog u ⟨0, 0, 0⟩ := by
  simp only [normSq] at hu
  ext i j
  fin_cases i <;> fin_cases j <;>
    (try simp [homog, Matrix.vecHead, Matrix.vecTail]) <;>
    first
      | rfl
      | linear_combination (u.x * u.y - u.z * u.w) * hc
      | linear_combination (u.x * u.y + u.z * u.w) * hc
      | linear_combination (u.x * u.z + u.y * u.w) * hc
      | linear_combination (u.x * u.z - u.y * u.w) * hc
      | linear_combination (u.y * u.z - u.x * u.w) * hc
      | linear_combination (u.y * u.z + u.x * u.w) * hc
      | linear_combination (-1 : ℝ) * hu + (-(u.y * u.y + u.z * u.z)) * hc
      | linear_combination (-1 : ℝ) * hu + (-(u.x * u.x + u.z * u.z)) * hc
      | linear_combination (-1 : ℝ) * hu + (-(u.x * u.x + u.y * u.y)) * hc

lemma quaternion_matrix_eq_homog (q : Quat) :
    quaternion_matrix q = homog (unitize q) ⟨0, 0, 0⟩ := by
  rw [quaternion_matrix, unitize]
  by_cases h : normSq q < _EPS
  · simp only [if_pos h]
    exact (homog_id _ rfl).symm
  · simp only [if_neg h]
    have hsplit : Real.sqrt (2 / normSq q) =
        Real.sqrt 2 / Real.sqrt (normSq q) := Real.sqrt_div (by norm_num) _
    have h2 : Real.sqrt 2 * Real.sqrt 2 = 2 := Real.mul_self_sqrt (by norm_num)
    rw [← scaled_matrix_eq_homog (Real.sqrt 2)
      ⟨q.x / Real.sqrt (normSq q), q.y / Real.sqrt (normSq q),
       q.z / Real.sqrt (normSq q), q.w / Real.sqrt (normSq q)⟩ h2
      (unitize_unit_pre q h)]
    ext i j
    fin_cases i <;> fin_cases j <;>
      (try simp [hsplit, Matrix.vecHead, Matrix.vecTail]) <;>
      first
        | rfl
        | ring

lemma withTranslation_embedRot_homog (q : Quat) (v : Vec3) :
    withTranslation (embedRot (homog q ⟨0, 0, 0⟩)) v.x v.y v.z = homog q v := by
  ext i j
  fin_cases i <;> fin_cases j <;>
    simp [withTranslation, embedRot, homog, Matrix.vecHead, Matrix.vecTail]

lemma withTranslation_homog (q : Quat) (v : Vec3) :
    withTranslation (homog q ⟨0, 0, 0⟩) v.x v.y v.z = homog q v := by
  ext i j
  fin_cases i <;> fin_cases j <;>
    simp [withTranslation, homog, Matrix.vecHead, Matrix.vecTail]

lemma pose2np_pose (p : Pose) :
    pose2np (.pose p) = homog (unitize p.orientation) p.position := by
  show withTranslation (embedRot (quaternion_matrix p.orientation))
      p.position.x p.position.y p.position.z = _
  rw [quaternion_matrix_eq_homog, withTranslation_embedRot_homog]

lemma pose2np_transform (t : Transform) :
    pose2np (.transform t) = homog (unitize t.rotation) t.translation := by
  show withTranslation (quaternion_matrix t.rotation)
      t.translation.x t.translation.y t.translation.z = _
  rw [quaternion_matrix_eq_homog, withTranslation_homog]

lemma homog_mul (q1 q0 : Quat) (v1 v0 : Vec3) :
    homog q1 v1 * homog q0 v0 =
      homog (quaternion_multiply q1 q0) (vadd (rgApp q1 v0) v1) := by
  ext i j
  fin_cases i <;> fin_cases j <;>
    simp [homog, quaternion_multiply, vadd, rgApp, Matrix.mul_apply,
      Fin.sum_univ_four, Matrix.vecHead, Matrix.vecTail] <;>
    ring

lemma qmul_qconj (q : Quat) :
    quaternion_multiply q (quaternion_conjugate q) = ⟨0, 0, 0, normSq q⟩ := by
  simp only [quaternion_multiply, quaternion_conjugate, normSq, Quat.mk.injEq]
  refine ⟨by ring, by ring, by ring, by ring⟩

lemma rgApp_rgApp (q1 q0 : Quat) (v : Vec3) :
    rgApp q1 (rgApp q0 v) = rgApp (quaternion_multiply q1 q0) v := by
  simp only [rgApp, quaternion_multiply, Vec3.mk.injEq]
  refine ⟨by ring, by ring, by ring⟩

lemma rgApp_id (v : Vec3) : rgApp ⟨0, 0, 0, 1⟩ v = v := by
  cases v
  simp only [rgApp, Vec3.mk.injEq]
  refine ⟨by ring, by ring, by ring⟩

lemma homog_right_inv (q : Quat) (v : Vec3) (h : normSq q = 1) :
    homog q v *
      homog (quaternion_conjugate q) (rgApp (quaternion_conjugate q) (vneg v)) =
      1 := by
  rw [homog_mul, qmul_qconj, h, rgApp_rgApp, qmul_qconj, h, rgApp_id]
  apply homog_id
  cases v
  simp [vadd, vneg]

lemma np_linalg_inv_homog (q : Quat) (v : Vec3) (h : normSq q = 1) :
    np_linalg_inv (homog q v) =
      homog (quaternion_conjugate q) (rgApp (quaternion_conjugate q) (vneg v)) := by
  rw [np_linalg_inv]
  exact Matrix.inv_eq_right_inv (homog_right_inv q v h)

lemma homogE00 (q : Quat) (v : Vec3) :
    homog q v 0 0 = q.w * q.w + q.x * q.x - q.y * q.y - q.z * q.z := rfl
lemma homogE01 (q : Quat) (v : Vec3) :
    homog q v 0 1 = 2 * (q.x * q.y - q.z * q.w) := rfl
lemma homogE02 (q : Quat) (v : Vec3) :
    homog q v 0 2 = 2 * (q.x * q.z + q.y * q.w) := rfl
lemma homogE10 (q : Quat) (v : Vec3) :
    homog q v 1 0 = 2 * (q.x * q.y + q.z * q.w) := rfl
lemma homogE11 (q : Quat) (v : Vec3) :
    homog q v 1 1 = q.w * q.w - q.x * q.x + q.y * q.y - q.z * q.z := rfl
lemma homogE12 (q : Quat) (v : Vec3) :
    homog q v 1 2 = 2 * (q.y * q.z - q.x * q.w) := rfl
lemma homogE20 (q : Quat) (v : Vec3) :
    homog q v 2 0 = 2 * (q.x * q.z - q.y * q.w) := rfl
lemma homogE21 (q : Quat) (v : Vec3) :
    homog q v 2 1 = 2 * (q.y * q.z + q.x * q.w) := rfl
lemma homogE22 (q : Quat) (v : Vec3) :
    homog q v 2 2 = q.w * q.w - q.x * q.x - q.y * q.y + q.z * q.z := rfl
lemma homogE33 (q : Quat) (v : Vec3) : homog q v 3 3 = 1 := rfl

lemma qfmElse_eval_012 (M : Matrix (Fin 4) (Fin 4) ℝ) :
    qfmElse M 0 1 2 =
      ⟨(M 0 0 - (M 1 1 + M 2 2) + M 3 3) *
         (0.5 / Real.sqrt ((M 0 0 - (M 1 1 + M 2 2) + M 3 3) * M 3 3)),
       (M 0 1 + M 1 0) *
         (0.5 / Real.sqrt ((M 0 0 - (M 1 1 + M 2 2) + M 3 3) * M 3 3)),
       (M 2 0 + M 0 2) *
         (0.5 / Real.sqrt ((M 0 0 - (M 1 1 + M 2 2) + M 3 3) * M 3 3)),
       (M 2 1 - M 1 2) *
         (0.5 / Real.sqrt ((M 0 0 - (M 1 1 + M 2 2) + M 3 3) * M 3 3))⟩ := rfl

lemma qfmElse_homog_012 (x y z w : ℝ) (v : Vec3)
    (hu : x * x + y * y + z * z + w * w = 1)
    (hw4 : 4 * (w * w) ≤ 1) (hyx : y * y ≤ x * x) (hzx : z * z ≤ x * x) :
    qfmElse (homog ⟨x, y, z, w⟩ v) 0 1 2 = ⟨x, y, z, w⟩ ∨
      qfmElse (homog ⟨x, y, z, w⟩ v) 0 1 2 = qneg ⟨x, y, z, w⟩ := by
  have hx2 : 1 / 4 ≤ x * x := by nlinarith
  have hx0 : x ≠ 0 := by
    intro h0
    rw [h0] at hx2
    norm_num at hx2
  rw [qfmElse_eval_012]
  simp only [homogE00, homogE01, homogE02, homogE10, homogE11, homogE12,
    homogE20, homogE21, homogE22, homogE33]
  rw [show (w * w + x * x - y * y - z * z -
        (w * w - x * x + y * y - z * z + (w * w - x * x - y * y + z * z)) +
        1 : ℝ) = 4 * (x * x) by linear_combination (-1 : ℝ) * hu]
  rw [show (2 * (x * y - z * w) + 2 * (x * y + z * w) : ℝ) = 4 * (x * y) by ring]
  rw [show (2 * (x * z - y * w) + 2 * (x * z + y * w) : ℝ) = 4 * (x * z) by ring]
  rw [show (2 * (y * z + x * w) - 2 * (y * z - x * w) : ℝ) = 4 * (x * w) by ring]
  rcases lt_or_gt_of_ne hx0 with hx | hx
  · right
    rw [show (4 * (x * x) * 1 : ℝ) = (-(2 * x)) ^ 2 by ring,
      Real.sqrt_sq (by linarith)]
    simp only [qneg, Quat.mk.injEq]
    have hcomp : ∀ a : ℝ, 4 * (x * a) * (0.5 / -(2 * x)) = -a := by
      intro a
      field_simp
      ring
    exact ⟨hcomp x, hcomp y, hcomp z, hcomp w⟩
  · left
    rw [show (4 * (x * x) * 1 : ℝ) = (2 * x) ^ 2 by ring,
      Real.sqrt_sq (by linarith)]
    simp only [Quat.mk.injEq]
    have hcomp : ∀ a : ℝ, 4 * (x * a) * (0.5 / (2 * x)) = a := by
      intro a
      field_simp
      ring
    exact ⟨hcomp x, hcomp y, hcomp z, hcomp w⟩

lemma qfmElse_homog_012_pos (x y z w : ℝ) (v : Vec3)
    (hu : x * x + y * y + z * z + w * w = 1) (hx : 0 < x) :
    qfmElse (homog ⟨x, y, z, w⟩ v) 0 1 2 = ⟨x, y, z, w⟩ := by
  rw [qfmElse_eval_012]
  simp only [homogE00, homogE01, homogE02, homogE10, homogE11, homogE12,
    homogE20, homogE21, homogE22, homogE33]
  rw [show (w * w + x * x - y * y - z * z -
        (w * w - x * x + y * y - z * z + (w * w - x * x - y * y + z * z)) +
        1 : ℝ) = 4 * (x * x) by linear_combination (-1 : ℝ) * hu]
  rw [show (2 * (x * y - z * w) + 2 * (x * y + z * w) : ℝ) = 4 * (x * y) by ring]
  rw [show (2 * (x * z - y * w) + 2 * (x * z + y * w) : ℝ) = 4 * (x * z) by ring]
  rw [show (2 * (y * z + x * w) - 2 * (y * z - x * w) : ℝ) = 4 * (x * w) by ring]
  rw [show (4 * (x * x) * 1 : ℝ) = (2 * x) ^ 2 by ring,
    Real.sqrt_sq (by linarith)]
  simp only [Quat.mk.injEq]
  have hcomp : ∀ a : ℝ, 4 * (x * a) * (0.5 / (2 * x)) = a := by
    intro a
    field_simp
    ring
  exact ⟨hcomp x, hcomp y, hcomp z, hcomp w⟩

lemma qfmElse_eval_120 (M : Matrix (Fin 4) (Fin 4) ℝ) :
    qfmElse M 1 2 0 =
      ⟨(M 0 1 + M 1 0) *
         (0.5 / Real.sqrt ((M 1 1 - (M 2 2 + M 0 0) + M 3 3) * M 3 3)),
       (M 1 1 - (M 2 2 + M 0 0) + M 3 3) *
         (0.5 / Real.sqrt ((M 1 1 - (M 2 2 + M 0 0) + M 3 3) * M 3 3)),
       (M 1 2 + M 2 1) *
         (0.5 / Real.sqrt ((M 1 1 - (M 2 2 + M 0 0) + M 3 3) * M 3 3)),
       (M 0 2 - M 2 0) *
         (0.5 / Real.sqrt ((M 1 1 - (M 2 2 + M 0 0) + M 3 3) * M 3 3))⟩ := rfl

lemma qfmElse_eval_201 (M : Matrix (Fin 4) (Fin 4) ℝ) :
    qfmElse M 2 0 1 =
      ⟨(M 2 0 + M 0 2) *
         (0.5 / Real.sqrt ((M 2 2 - (M 0 0 + M 1 1) + M 3 3) * M 3 3)),
       (M 1 2 + M 2 1) *
         (0.5 / Real.sqrt ((M 2 2 - (M 0 0 + M 1 1) + M 3 3) * M 3 3)),
       (M 2 2 - (M 0 0 + M 1 1) + M 3 3) *
         (0.5 / Real.sqrt ((M 2 2 - (M 0 0 + M 1 1) + M 3 3) * M 3 3)),
       (M 1 0 - M 0 1) *
         (0.5 / Real.sqrt ((M 2 2 - (M 0 0 + M 1 1) + M 3 3) * M 3 3))⟩ := rfl

lemma qfmElse_homog_120 (x y z w : ℝ) (v : Vec3)
    (hu : x * x + y * y + z * z + w * w = 1)
    (hw4 : 4 * (w * w) ≤ 1) (hxy : x * x ≤ y * y) (hzy : z * z ≤ y * y) :
    qfmElse (homog ⟨x, y, z, w⟩ v) 1 2 0 = ⟨x, y, z, w⟩ ∨
      qfmElse (homog ⟨x, y, z, w⟩ v) 1 2 0 = qneg ⟨x, y, z, w⟩ := by
  have hy2 : 1 / 4 ≤ y * y := by nlinarith
  have hy0 : y ≠ 0 := by
    intro h0
    rw [h0] at hy2
    norm_num at hy2
  rw [qfmElse_eval_120]
  simp only [homogE00, homogE01, homogE02, homogE10, homogE11, homogE12,
    homogE20, homogE21, homogE22, homogE33]
  rw [show (w * w - x * x + y * y - z * z -
        (w * w - x * x - y * y + z * z + (w * w + x * x - y * y - z * z)) +
        1 : ℝ) = 4 * (y * y) by linear_combination (-1 : ℝ) * hu]
  rw [show (2 * (x * y - z * w) + 2 * (x * y + z * w) : ℝ) = 4 * (y * x) by ring]
  rw [show (2 * (y * z - x * w) + 2 * (y * z + x * w) : ℝ) = 4 * (y * z) by ring]
  rw [show (2 * (x * z + y * w) - 2 * (x * z - y * w) : ℝ) = 4 * (y * w) by ring]
  rcases lt_or_gt_of_ne hy0 with hy | hy
  · right
    rw [show (4 * (y * y) * 1 : ℝ) = (-(2 * y)) ^ 2 by ring,
      Real.sqrt_sq (by linarith)]
    simp only [qneg, Quat.mk.injEq]
    have hcomp : ∀ a : ℝ, 4 * (y * a) * (0.5 / -(2 * y)) = -a := by
      intro a
      field_simp
      ring
    exact ⟨hcomp x, hcomp y, hcomp z, hcomp w⟩
  · left
    rw [show (4 * (y * y) * 1 : ℝ) = (2 * y) ^ 2 by ring,
      Real.sqrt_sq (by linarith)]
    simp only [Quat.mk.injEq]
    have hcomp : ∀ a : ℝ, 4 * (y * a) * (0.5 / (2 * y)) = a := by
      intro a
      field_simp
      ring
    exact ⟨hcomp x, hcomp y, hcomp z, hcomp w⟩

lemma qfmElse_homog_201 (x y z w : ℝ) (v : Vec3)
    (hu : x * x + y * y + z * z + w * w = 1)
    (hw4 : 4 * (w * w) ≤ 1) (hxz : x * x ≤ z * z) (hyz : y * y ≤ z * z) :
    qfmElse (homog ⟨x, y, z, w⟩ v) 2 0 1 = ⟨x, y, z, w⟩ ∨
      qfmElse (homog ⟨x, y, z, w⟩ v) 2 0 1 = qneg ⟨x, y, z, w⟩ := by
  have hz2 : 1 / 4 ≤ z * z := by nlinarith
  have hz0 : z ≠ 0 := by
    intro h0
    rw [h0] at hz2
    norm_num at hz2
  rw [qfmElse_eval_201]
  simp only [homogE00, homogE01, homogE02, homogE10, homogE11, homogE12,
    homogE20, homogE21, homogE22, homogE33]
  rw [show (w * w - x * x - y * y + z * z -
        (w * w + x * x - y * y - z * z + (w * w - x * x + y * y - z * z)) +
        1 : ℝ) = 4 * (z * z) by linear_combination (-1 : ℝ) * hu]
  rw [show (2 * (x * z - y * w) + 2 * (x * z + y * w) : ℝ) = 4 * (z * x) by ring]
  rw [show (2 * (y * z - x * w) + 2 * (y * z + x * w) : ℝ) = 4 * (z * y) by ring]
  rw [show (2 * (x * y + z * w) - 2 * (x * y - z * w) : ℝ) = 4 * (z * w) by ring]
  rcases lt_or_gt_of_ne hz0 with hz | hz
  · right
    rw [show (4 * (z * z) * 1 : ℝ) = (-(2 * z)) ^ 2 by ring,
      Real.sqrt_sq (by linarith)]
    simp only [qneg, Quat.mk.injEq]
    have hcomp : ∀ a : ℝ, 4 * (z * a) * (0.5 / -(2 * z)) = -a := by
      intro a
      field_simp
      ring
    exact ⟨hcomp x, hcomp y, hcomp z, hcomp w⟩
  · left
    rw [show (4 * (z * z) * 1 : ℝ) = (2 * z) ^ 2 by ring,
      Real.sqrt_sq (by linarith)]
    simp only [Quat.mk.injEq]
    have hcomp : ∀ a : ℝ, 4 * (z * a) * (0.5 / (2 * z)) = a := by
      intro a
      field_simp
      ring
    exact ⟨hcomp x, hcomp y, hcomp z, hcomp w⟩

lemma qfm_homog (u : Quat) (v : Vec3) (hu : normSq u = 1) :
    quaternion_from_matrix (homog u v) = u ∨
      quaternion_from_matrix (homog u v) = qneg u := by
  obtain ⟨x, y, z, w⟩ := u
  simp only [normSq] at hu
  simp only [quaternion_from_matrix, homogE00, homogE01, homogE02, homogE10,
    homogE11, homogE12, homogE20, homogE21, homogE22, homogE33]
  rw [show (w * w + x * x - y * y - z * z + (w * w - x * x + y * y - z * z) +
        (w * w - x * x - y * y + z * z) + 1 : ℝ) = 4 * (w * w) by
      linear_combination (-1 : ℝ) * hu]
  by_cases h1 : (1 : ℝ) < 4 * (w * w)
  · rw [if_pos h1]
    rw [show (2 * (y * z + x * w) - 2 * (y * z - x * w) : ℝ) = 4 * (w * x) by
        ring]
    rw [show (2 * (x * z + y * w) - 2 * (x * z - y * w) : ℝ) = 4 * (w * y) by
        ring]
    rw [show (2 * (x * y + z * w) - 2 * (x * y - z * w) : ℝ) = 4 * (w * z) by
        ring]
    have hw0 : w ≠ 0 := by
      intro h0
      rw [h0] at h1
      norm_num at h1
    rcases lt_or_gt_of_ne hw0 with hw | hw
    · right
      rw [show (4 * (w * w) * 1 : ℝ) = (-(2 * w)) ^ 2 by ring,
        Real.sqrt_sq (by linarith)]
      simp only [qneg, Quat.mk.injEq]
      have hcomp : ∀ a : ℝ, 4 * (w * a) * (0.5 / -(2 * w)) = -a := by
        intro a
        field_simp
        ring
      exact ⟨hcomp x, hcomp y, hcomp z, hcomp w⟩
    · left
      rw [show (4 * (w * w) * 1 : ℝ) = (2 * w) ^ 2 by ring,
        Real.sqrt_sq (by linarith)]
      simp only [Quat.mk.injEq]
      have hcomp : ∀ a : ℝ, 4 * (w * a) * (0.5 / (2 * w)) = a := by
        intro a
        field_simp
        ring
      exact ⟨hcomp x, hcomp y, hcomp z, hcomp w⟩
  · rw [if_neg h1]
    have hw4 : 4 * (w * w) ≤ 1 := not_lt.1 h1
    by_cases hxy : (x * x : ℝ) < y * y
    · rw [if_pos (by linarith :
        (w * w + x * x - y * y - z * z : ℝ) < w * w - x * x + y * y - z * z)]
      by_cases hyz : (y * y : ℝ) < z * z
      · rw [if_pos (by linarith :
          (w * w - x * x + y * y - z * z : ℝ) <
            w * w - x * x - y * y + z * z)]
        exact qfmElse_homog_201 x y z w v hu hw4 (by linarith) hyz.le
      · rw [if_neg (not_lt.2 (by linarith :
          (w * w - x * x - y * y + z * z : ℝ) ≤
            w * w - x * x + y * y - z * z))]
        exact qfmElse_homog_120 x y z w v hu hw4 hxy.le (by linarith)
    · rw [if_neg (not_lt.2 (by linarith :
        (w * w - x * x + y * y - z * z : ℝ) ≤
          w * w + x * x - y * y - z * z))]
      by_cases hxz : (x * x : ℝ) < z * z
      · rw [if_pos (by linarith :
          (w * w + x * x - y * y - z * z : ℝ) <
            w * w - x * x - y * y + z * z)]
        exact qfmElse_homog_201 x y z w v hu hw4 hxz.le (by linarith)
      · rw [if_neg (not_lt.2 (by linarith :
          (w * w - x * x - y * y + z * z : ℝ) ≤
            w * w + x * x - y * y - z * z))]
        exact qfmElse_homog_012 x y z w v hu hw4 (by linarith) (by linarith)

lemma np2trf_homog (q : Quat) (v : Vec3) :
    np2trf (homog q v) = ⟨v, quaternion_from_matrix (homog q v)⟩ := by
  cases v
  rfl

lemma np2pose_homog (q : Quat) (v : Vec3) :
    np2pose (homog q v) = ⟨v, quaternion_from_matrix (homog q v)⟩ := by
  cases v
  rfl

lemma unitize_of_small (q : Quat) (h : normSq q < _EPS) :
    unitize q = ⟨0, 0, 0, 1⟩ := by
  rw [unitize, if_pos h]

lemma homog_id_trans (v : Vec3) :
    homog ⟨0, 0, 0, 1⟩ v =
      !![1, 0, 0, v.x; 0, 1, 0, v.y; 0, 0, 1, v.z; 0, 0, 0, 1] := by
  ext i j
  fin_cases i <;> fin_cases j <;>
    simp [homog, Matrix.vecHead, Matrix.vecTail]

/-- The 3-vector formed by the first three components of a quaternion,
modelling the `[:3]` slice that `transform_vector` returns. -/
def vecOfQuat (q : Quat) : Vec3 := ⟨q.x, q.y, q.z⟩

/-- A 3-vector lifted to a pure quaternion with zero scalar part. -/
def pureQuat (v : Vec3) : Quat := ⟨v.x, v.y, v.z, 0⟩

/-- The 3x3 rotation block of a 4x4 homogeneous transform. -/
def rotBlock (g : Matrix (Fin 4) (Fin 4) ℝ) : Matrix (Fin 3) (Fin 3) ℝ :=
  !![g 0 0, g 0 1, g 0 2;
     g 1 0, g 1 1, g 1 2;
     g 2 0, g 2 1, g 2 2]

/-- Modelled from the spec: the analytic rigid inverse
`[[R^T, -R^T t], [0, 1]]` that section 4.2 of the design prescribes in
place of general matrix inversion (the code itself uses
`numpy.linalg.inv`; this definition exists only to be compared with
it). -/
def rigidInverse (g : Matrix (Fin 4) (Fin 4) ℝ) : Matrix (Fin 4) (Fin 4) ℝ :=
  !![g 0 0, g 1 0, g 2 0, -(g 0 0 * g 0 3 + g 1 0 * g 1 3 + g 2 0 * g 2 3);
     g 0 1, g 1 1, g 2 1, -(g 0 1 * g 0 3 + g 1 1 * g 1 3 + g 2 1 * g 2 3);
     g 0 2, g 1 2, g 2 2, -(g 0 2 * g 0 3 + g 1 2 * g 1 3 + g 2 2 * g 2 3);
     0, 0, 0, 1]

lemma pose2np_identityQ (a b c : ℝ) :
    pose2np (.pose ⟨⟨a, b, c⟩, ⟨0, 0, 0, 1⟩⟩) =
      !![1, 0, 0, a; 0, 1, 0, b; 0, 0, 1, c; 0, 0, 0, 1] := by
  rw [pose2np_pose, unitize_of_unit _ (by norm_num [normSq])]
  exact homog_id_trans ⟨a, b, c⟩

lemma qfm_translation (a b c : ℝ) :
    quaternion_from_matrix !![1, 0, 0, a; 0, 1, 0, b; 0, 0, 1, c; 0, 0, 0, 1] =
      ⟨0, 0, 0, 1⟩ := by
  have hs : Real.sqrt (4 : ℝ) = 2 := by
    rw [show (4 : ℝ) = 2 ^ 2 by norm_num]
    exact Real.sqrt_sq (by norm_num)
  norm_num [quaternion_from_matrix, Matrix.vecHead, Matrix.vecTail, hs]

lemma np2trf_translation (a b c : ℝ) :
    np2trf !![1, 0, 0, a; 0, 1, 0, b; 0, 0, 1, c; 0, 0, 0, 1] =
      ⟨⟨a, b, c⟩, ⟨0, 0, 0, 1⟩⟩ := by
  rw [np2trf, qfm_translation]
  rfl

lemma tbp_poseStamped_identityQ (ps : PoseStamped) (a b c : ℝ) :
    transform_between_poses (.poseStamped ps)
        (.pose ⟨⟨a, b, c⟩, ⟨0, 0, 0, 1⟩⟩) =
      ⟨⟨a, b, c⟩, ⟨0, 0, 0, 1⟩⟩ := by
  have h1 : np_linalg_inv (pose2np (.poseStamped ps)) = 1 := by
    rw [show pose2np (.poseStamped ps) = (1 : Matrix (Fin 4) (Fin 4) ℝ) from
      rfl, np_linalg_inv]
    exact Matrix.inv_eq_right_inv (by rw [one_mul])
  simp only [transform_between_poses, h1, one_mul, pose2np_identityQ,
    np2trf_translation]

lemma transform_vector_id (v : Vec3) (b : Bool) :
    transform_vector ⟨⟨0, 0, 0⟩, ⟨0, 0, 0, 1⟩⟩ v b = v := by
  cases v
  cases b <;>
    simp [transform_vector, quaternion_multiply, quaternion_conjugate,
      Vec3.mk.injEq]

lemma staticEvts_nil : staticEvts [] = [] := rfl

lemma staticEvts_append (l1 l2 : List Event) :
    staticEvts (l1 ++ l2) = staticEvts l1 ++ staticEvts l2 := by
  simp [staticEvts]

lemma staticEvts_static (t : PoseStamped) (rest : List Event) :
    staticEvts (Event.staticTransform t :: rest) = t :: staticEvts rest := rfl

lemma staticEvts_broadcast (tt : Transform) (rest : List Event) :
    staticEvts (Event.transformBroadcast tt :: rest) = staticEvts rest := rfl

lemma staticEvts_odometry (rel : Transform) (tw : Twist)
    (rest : List Event) :
    staticEvts (Event.odometry rel tw :: rest) = staticEvts rest := rfl

lemma odomAngulars_nil : odomAngulars [] = [] := rfl

lemma odomAngulars_static (t : PoseStamped) (rest : List Event) :
    odomAngulars (Event.staticTransform t :: rest) = odomAngulars rest := rfl

lemma odomAngulars_broadcast (tt : Transform) (rest : List Event) :
    odomAngulars (Event.transformBroadcast tt :: rest) =
      odomAngulars rest := rfl

lemma odomAngulars_odometry (rel : Transform) (tw : Twist)
    (rest : List Event) :
    odomAngulars (Event.odometry rel tw :: rest) =
      tw.angular :: odomAngulars rest := rfl

lemma run_latched (p : PoseStamped) (L : List (Option (Pose × Twist))) :
    (run (some p) L).1 = some p ∧ staticEvts (run (some p) L).2 = [] := by
  induction L with
  | nil => simp [run, staticEvts_nil]
  | cons s rest ih =>
      cases s with
      | none =>
          simpa [run, loopIter, staticEvts_append, staticEvts_nil,
            staticEvts_broadcast, staticEvts_odometry] using ih
      | some s' =>
          obtain ⟨ms, mtw⟩ := s'
          simpa [run, loopIter, staticEvts_append, staticEvts_nil,
            staticEvts_broadcast, staticEvts_odometry] using ih

section Claims

/-- Claim C1: for every pair of poses whose quaternions have nonzero
norm, composing the base pose with the result of
`transform_between_poses` (as 4x4 homogeneous matrices, via `pose2np`)
yields the follower pose exactly (exact real arithmetic stands in for
the numeric tolerance). -/
theorem claim_C1_compose_transform_between (pb pf : Pose)
    (_hb : normSq pb.orientation ≠ 0) (_hf : normSq pf.orientation ≠ 0) :
    pose2np (.pose pb) *
      pose2np (.transform (transform_between_poses (.pose pb) (.pose pf))) =
      pose2np (.pose pf) := by
  have hub : normSq (unitize pb.orientation) = 1 := unitize_unit _
  have huf : normSq (unitize pf.orientation) = 1 := unitize_unit _
  have hA : pose2np (.pose pb) = homog (unitize pb.orientation) pb.position :=
    pose2np_pose pb
  have hB : pose2np (.pose pf) = homog (unitize pf.orientation) pf.position :=
    pose2np_pose pf
  have hu12 : normSq (quaternion_multiply
      (quaternion_conjugate (unitize pb.orientation))
      (unitize pf.orientation)) = 1 := by
    rw [normSq_qmul, normSq_qconj, hub, huf]
    norm_num
  have hg : np_linalg_inv (homog (unitize pb.orientation) pb.position) *
      homog (unitize pf.orientation) pf.position =
      homog (quaternion_multiply
          (quaternion_conjugate (unitize pb.orientation))
          (unitize pf.orientation))
        (vadd
          (rgApp (quaternion_conjugate (unitize pb.orientation)) pf.position)
          (rgApp (quaternion_conjugate (unitize pb.orientation))
            (vneg pb.position))) := by
    rw [np_linalg_inv_homog _ _ hub, homog_mul]
  have htb : transform_between_poses (.pose pb) (.pose pf) =
      np2trf (np_linalg_inv (pose2np (.pose pb)) * pose2np (.pose pf)) := rfl
  have hAA : homog (unitize pb.orientation) pb.position *
      np_linalg_inv (homog (unitize pb.orientation) pb.position) = 1 := by
    rw [np_linalg_inv_homog _ _ hub]
    exact homog_right_inv _ _ hub
  have goal_step : pose2np (.transform (np2trf (homog (quaternion_multiply
      (quaternion_conjugate (unitize pb.orientation))
      (unitize pf.orientation))
        (vadd
          (rgApp (quaternion_conjugate (unitize pb.orientation)) pf.position)
          (rgApp (quaternion_conjugate (unitize pb.orientation))
            (vneg pb.position)))))) =
      homog (quaternion_multiply
          (quaternion_conjugate (unitize pb.orientation))
          (unitize pf.orientation))
        (vadd
          (rgApp (quaternion_conjugate (unitize pb.orientation)) pf.position)
          (rgApp (quaternion_conjugate (unitize pb.orientation))
            (vneg pb.position))) := by
    rw [np2trf_homog, pose2np_transform]
    rcases qfm_homog _ (vadd
        (rgApp (quaternion_conjugate (unitize pb.orientation)) pf.position)
        (rgApp (quaternion_conjugate (unitize pb.orientation))
          (vneg pb.position))) hu12 with h | h
    · show homog (unitize _) _ = _
      rw [h, unitize_of_unit _ hu12]
    · show homog (unitize _) _ = _
      rw [h, unitize_of_unit _ (by rw [normSq_qneg]; exact hu12), homog_qneg]
  rw [htb, hA, hB, hg, goal_step, ← hg, ← Matrix.mul_assoc, hAA, one_mul]

/-- Witness for C1 at a concrete pair of poses: the identity-orientation
pose at the origin and an identity-orientation pose translated by
`(1, 2, 3)`; both hypotheses hold and the composition identity follows
from the theorem. -/
theorem claim_C1_compose_transform_between_witness :
    normSq (⟨0, 0, 0, 1⟩ : Quat) ≠ 0 ∧
      pose2np (.pose ⟨⟨0, 0, 0⟩, ⟨0, 0, 0, 1⟩⟩) *
        pose2np (.transform (transform_between_poses
          (.pose ⟨⟨0, 0, 0⟩, ⟨0, 0, 0, 1⟩⟩)
          (.pose ⟨⟨1, 2, 3⟩, ⟨0, 0, 0, 1⟩⟩))) =
        pose2np (.pose ⟨⟨1, 2, 3⟩, ⟨0, 0, 0, 1⟩⟩) :=
  ⟨by norm_num [normSq],
   claim_C1_compose_transform_between ⟨⟨0, 0, 0⟩, ⟨0, 0, 0, 1⟩⟩
     ⟨⟨1, 2, 3⟩, ⟨0, 0, 0, 1⟩⟩ (by norm_num [normSq]) (by norm_num [normSq])⟩

/-- Claim C7 counterexample: the pose with unit quaternion
`(24/25, 0, 0, -7/25)` round-trips to exactly itself, whose scalar
component is negative - so the extracted quaternion does not follow the
asserted non-negative-scalar-component sign convention. -/
theorem claim_C7_roundtrip_counterexample :
    (np2pose (pose2np
        (.pose ⟨⟨1, 2, 3⟩, ⟨24 / 25, 0, 0, -(7 / 25)⟩⟩))).orientation =
      ⟨24 / 25, 0, 0, -(7 / 25)⟩ ∧
    ((np2pose (pose2np
        (.pose ⟨⟨1, 2, 3⟩, ⟨24 / 25, 0, 0, -(7 / 25)⟩⟩))).orientation).w < 0 := by
  have hq1 : normSq (⟨24 / 25, 0, 0, -(7 / 25)⟩ : Quat) = 1 := by
    norm_num [normSq]
  have hstep : pose2np (.pose ⟨⟨1, 2, 3⟩, ⟨24 / 25, 0, 0, -(7 / 25)⟩⟩) =
      homog ⟨24 / 25, 0, 0, -(7 / 25)⟩ ⟨1, 2, 3⟩ := by
    rw [pose2np_pose]
    rw [unitize_of_unit _ hq1]
  have hsel : quaternion_from_matrix
      (homog ⟨24 / 25, 0, 0, -(7 / 25)⟩ ⟨1, 2, 3⟩) =
      qfmElse (homog ⟨24 / 25, 0, 0, -(7 / 25)⟩ ⟨1, 2, 3⟩) 0 1 2 := by
    simp only [quaternion_from_matrix, homogE00, homogE01, homogE02, homogE10,
      homogE11, homogE12, homogE20, homogE21, homogE22, homogE33]
    norm_num
  have horient : (np2pose (pose2np
      (.pose ⟨⟨1, 2, 3⟩, ⟨24 / 25, 0, 0, -(7 / 25)⟩⟩))).orientation =
      ⟨24 / 25, 0, 0, -(7 / 25)⟩ := by
    rw [hstep, np2pose_homog]
    exact hsel.trans
      (qfmElse_homog_012_pos (24 / 25) 0 0 (-(7 / 25)) ⟨1, 2, 3⟩
        (by norm_num) (by norm_num))
  refine ⟨horient, ?_⟩
  rw [horient]
  norm_num

/-- Claim C7 as amended: for a pose carrying a unit quaternion (the data
model invariant), the matrix round trip `np2pose (pose2np p)` reproduces
the translation exactly and the quaternion up to overall sign - not
necessarily with a non-negative scalar component. -/
theorem claim_C7_roundtrip_amended (p : Pose)
    (h : normSq p.orientation = 1) :
    (np2pose (pose2np (.pose p))).position = p.position ∧
      ((np2pose (pose2np (.pose p))).orientation = p.orientation ∨
        (np2pose (pose2np (.pose p))).orientation = qneg p.orientation) := by
  rw [pose2np_pose, unitize_of_unit _ h, np2pose_homog]
  exact ⟨rfl, qfm_homog _ _ h⟩

/-- Witness for the amended C7 at a concrete pose with the unit
quaternion `(3/5, 0, 4/5, 0)` and translation `(5, 6, 7)`. -/
theorem claim_C7_roundtrip_amended_witness :
    normSq (⟨3 / 5, 0, 4 / 5, 0⟩ : Quat) = 1 ∧
      ((np2pose (pose2np
          (.pose ⟨⟨5, 6, 7⟩, ⟨3 / 5, 0, 4 / 5, 0⟩⟩))).position = ⟨5, 6, 7⟩ ∧
        ((np2pose (pose2np
            (.pose ⟨⟨5, 6, 7⟩, ⟨3 / 5, 0, 4 / 5, 0⟩⟩))).orientation =
            ⟨3 / 5, 0, 4 / 5, 0⟩ ∨
          (np2pose (pose2np
            (.pose ⟨⟨5, 6, 7⟩, ⟨3 / 5, 0, 4 / 5, 0⟩⟩))).orientation =
            qneg ⟨3 / 5, 0, 4 / 5, 0⟩)) :=
  ⟨by norm_num [normSq],
   claim_C7_roundtrip_amended ⟨⟨5, 6, 7⟩, ⟨3 / 5, 0, 4 / 5, 0⟩⟩
     (by norm_num [normSq])⟩

/-- Claim C3 counterexample: on the zero quaternion, `pose2np` does not
fail - there is no error path in the source at all - and instead returns
the well-defined matrix with identity rotation block and the pose
translation (the internal epsilon guard of `quaternion_matrix` yields
the identity for degenerate quaternions, so no NaN can arise either). -/
theorem claim_C3_zero_quaternion_counterexample :
    pose2np (.pose ⟨⟨1, 2, 3⟩, ⟨0, 0, 0, 0⟩⟩) =
      !![1, 0, 0, 1; 0, 1, 0, 2; 0, 0, 1, 3; 0, 0, 0, 1] := by
  rw [pose2np_pose, unitize_of_small _ (by simpa [normSq] using _EPS_pos)]
  exact homog_id_trans ⟨1, 2, 3⟩

/-- Claim C3 as amended: for any `Pose` or `Transform` whose quaternion
squared norm is below the library epsilon (in particular for the zero
quaternion), `pose2np` returns normally, producing the finite matrix
with identity rotation block and the given translation - it raises no
error and produces no NaN. -/
theorem claim_C3_zero_quaternion_amended :
    (∀ p : Pose, normSq p.orientation < _EPS →
        pose2np (.pose p) =
          !![1, 0, 0, p.position.x; 0, 1, 0, p.position.y;
             0, 0, 1, p.position.z; 0, 0, 0, 1]) ∧
    (∀ t : Transform, normSq t.rotation < _EPS →
        pose2np (.transform t) =
          !![1, 0, 0, t.translation.x; 0, 1, 0, t.translation.y;
             0, 0, 1, t.translation.z; 0, 0, 0, 1]) := by
  constructor
  · intro p h
    rw [pose2np_pose, unitize_of_small _ h]
    exact homog_id_trans p.position
  · intro t h
    rw [pose2np_transform, unitize_of_small _ h]
    exact homog_id_trans t.translation

/-- Witness for the amended C3 at the zero quaternion with translation
`(4, 5, 6)`. -/
theorem claim_C3_zero_quaternion_amended_witness :
    normSq (⟨0, 0, 0, 0⟩ : Quat) < _EPS ∧
      pose2np (.pose ⟨⟨4, 5, 6⟩, ⟨0, 0, 0, 0⟩⟩) =
        !![1, 0, 0, 4; 0, 1, 0, 5; 0, 0, 1, 6; 0, 0, 0, 1] :=
  ⟨by simpa [normSq] using _EPS_pos,
   claim_C3_zero_quaternion_amended.1 ⟨⟨4, 5, 6⟩, ⟨0, 0, 0, 0⟩⟩
     (by simpa [normSq] using _EPS_pos)⟩

/-- Claim C5: `transform_vector` computes the quaternion sandwich
`q * v * conj q` in the forward direction and `conj q * v * q` in the
inverse direction (the vector lifted to a pure quaternion; stated in
the opposite association to the source, which the proof bridges by
associativity of the Hamilton product), and its result depends only on
the rotation component of the transform, never on its translation. -/
theorem claim_C5_transform_vector_sandwich (t : Transform) (v : Vec3) :
    (transform_vector t v false =
        vecOfQuat (quaternion_multiply t.rotation
          (quaternion_multiply (pureQuat v)
            (quaternion_conjugate t.rotation))) ∧
      transform_vector t v true =
        vecOfQuat (quaternion_multiply
          (quaternion_multiply (quaternion_conjugate t.rotation) (pureQuat v))
          t.rotation)) ∧
    ∀ (t2 : Transform) (b : Bool), t2.rotation = t.rotation →
      transform_vector t2 v b = transform_vector t v b := by
  refine ⟨⟨?_, ?_⟩, ?_⟩
  · simp only [transform_vector, vecOfQuat, pureQuat, quaternion_multiply,
      quaternion_conjugate, Bool.false_eq_true, if_false, Vec3.mk.injEq]
    refine ⟨by ring, by ring, by ring⟩
  · simp only [transform_vector, vecOfQuat, pureQuat, quaternion_multiply,
      quaternion_conjugate, if_true, Vec3.mk.injEq]
    refine ⟨by ring, by ring, by ring⟩
  · intro t2 b h
    simp only [transform_vector, h]

/-- Witness for C5: two transforms with the same rotation but different
translations produce the same rotated vector, instantiated at concrete
values. -/
theorem claim_C5_transform_vector_sandwich_witness :
    (Transform.mk ⟨9, 9, 9⟩ ⟨0, 0, 0, 1⟩).rotation =
        (Transform.mk ⟨1, 2, 3⟩ ⟨0, 0, 0, 1⟩).rotation ∧
      transform_vector ⟨⟨9, 9, 9⟩, ⟨0, 0, 0, 1⟩⟩ ⟨4, 5, 6⟩ true =
        transform_vector ⟨⟨1, 2, 3⟩, ⟨0, 0, 0, 1⟩⟩ ⟨4, 5, 6⟩ true :=
  ⟨rfl,
   (claim_C5_transform_vector_sandwich ⟨⟨1, 2, 3⟩, ⟨0, 0, 0, 1⟩⟩ ⟨4, 5, 6⟩).2
     ⟨⟨9, 9, 9⟩, ⟨0, 0, 0, 1⟩⟩ true rfl⟩

/-- Claim C10: `pose2np` silently maps any argument that is neither a
`Pose` nor a `Transform` - in this program the latched `PoseStamped`
reference - to the 4x4 identity matrix, so `transform_between_poses`
treats such an argument exactly like the identity pose. -/
theorem claim_C10_posestamped_identity (ps : PoseStamped) (m : RosMsg) :
    pose2np (.poseStamped ps) = 1 ∧
      transform_between_poses (.poseStamped ps) m =
        transform_between_poses (.pose ⟨⟨0, 0, 0⟩, ⟨0, 0, 0, 1⟩⟩) m := by
  have hid : pose2np (.pose ⟨⟨0, 0, 0⟩, ⟨0, 0, 0, 1⟩⟩) = 1 := by
    rw [pose2np_pose, unitize_of_unit _ (by norm_num [normSq])]
    exact homog_id _ rfl
  refine ⟨rfl, ?_⟩
  simp only [transform_between_poses, hid]
  rfl

/-- Claim C9: for a rigid homogeneous transform (orthonormal rotation
block, bottom row `[0,0,0,1]`), the general matrix inverse used inside
`transform_between_poses` coincides with the analytic rigid inverse
`[[R^T, -R^T t], [0, 1]]` of the spec, and composing the transform with
its inverse gives the 4x4 identity. -/
theorem claim_C9_general_inverse_is_rigid_inverse
    (g : Matrix (Fin 4) (Fin 4) ℝ)
    (horth : Matrix.transpose (rotBlock g) * rotBlock g = 1)
    (hrow : g 3 0 = 0 ∧ g 3 1 = 0 ∧ g 3 2 = 0 ∧ g 3 3 = 1) :
    np_linalg_inv g = rigidInverse g ∧ g * np_linalg_inv g = 1 := by
  obtain ⟨hr0, hr1, hr2, hr3⟩ := hrow
  have hRRt : rotBlock g * Matrix.transpose (rotBlock g) = 1 := Matrix.mul_eq_one_comm.mp horth
  have h00 := congrFun (congrFun hRRt 0) 0
  have h01 := congrFun (congrFun hRRt 0) 1
  have h02 := congrFun (congrFun hRRt 0) 2
  have h10 := congrFun (congrFun hRRt 1) 0
  have h11 := congrFun (congrFun hRRt 1) 1
  have h12 := congrFun (congrFun hRRt 1) 2
  have h20 := congrFun (congrFun hRRt 2) 0
  have h21 := congrFun (congrFun hRRt 2) 1
  have h22 := congrFun (congrFun hRRt 2) 2
  simp only [Matrix.mul_apply, Matrix.transpose_apply]
    at h00 h01 h02 h10 h11 h12 h20 h21 h22
  simp +decide [rotBlock, Fin.sum_univ_three, Matrix.one_apply]
    at h00 h01 h02 h10 h11 h12 h20 h21 h22
  have hright : g * rigidInverse g = 1 := by
    ext i j
    fin_cases i <;> fin_cases j <;>
      simp [rigidInverse, Matrix.mul_apply, Fin.sum_univ_four,
        Matrix.one_apply, Matrix.vecHead, Matrix.vecTail, hr0, hr1, hr2,
        hr3] <;>
      first
        | linear_combination h00
        | linear_combination h01
        | linear_combination h02
        | linear_combination h10
        | linear_combination h11
        | linear_combination h12
        | linear_combination h20
        | linear_combination h21
        | linear_combination h22
        | linear_combination (-(g 0 3)) * h00 + (-(g 1 3)) * h01 +
            (-(g 2 3)) * h02
        | linear_combination (-(g 0 3)) * h10 + (-(g 1 3)) * h11 +
            (-(g 2 3)) * h12
        | linear_combination (-(g 0 3)) * h20 + (-(g 1 3)) * h21 +
            (-(g 2 3)) * h22
  have hinv : np_linalg_inv g = rigidInverse g := by
    rw [np_linalg_inv]
    exact Matrix.inv_eq_right_inv hright
  exact ⟨hinv, by rw [hinv]; exact hright⟩

/-- Witness for C9 at a concrete rigid transform: rotation by 90 degrees
about the vertical axis with translation `(1, 2, 3)`. -/
theorem claim_C9_general_inverse_is_rigid_inverse_witness :
    (Matrix.transpose (rotBlock !![0, -1, 0, 1; 1, 0, 0, 2; 0, 0, 1, 3; 0, 0, 0, 1]) *
        rotBlock !![0, -1, 0, 1; 1, 0, 0, 2; 0, 0, 1, 3; 0, 0, 0, 1] = 1) ∧
      (np_linalg_inv !![0, -1, 0, 1; 1, 0, 0, 2; 0, 0, 1, 3; 0, 0, 0, 1] =
          rigidInverse !![0, -1, 0, 1; 1, 0, 0, 2; 0, 0, 1, 3; 0, 0, 0, 1] ∧
        !![0, -1, 0, 1; 1, 0, 0, 2; 0, 0, 1, 3; 0, 0, 0, 1] *
          np_linalg_inv !![0, -1, 0, 1; 1, 0, 0, 2; 0, 0, 1, 3; 0, 0, 0, 1] =
          1) := by
  have horth : Matrix.transpose
      (rotBlock !![0, -1, 0, 1; 1, 0, 0, 2; 0, 0, 1, 3; 0, 0, 0, 1]) *
      rotBlock !![0, -1, 0, 1; 1, 0, 0, 2; 0, 0, 1, 3; 0, 0, 0, 1] = 1 := by
    ext i j
    fin_cases i <;> fin_cases j <;>
      simp [rotBlock, Matrix.mul_apply, Fin.sum_univ_three,
        Matrix.transpose_apply, Matrix.one_apply, Matrix.vecHead,
        Matrix.vecTail]
  exact ⟨horth,
    claim_C9_general_inverse_is_rigid_inverse _ horth
      ⟨rfl, rfl, rfl, rfl⟩⟩

/-- Claim C2 (evaluation at the failing input): with the reference
latched from the first sample at position `(5, 0, 0)` (identity
orientation) and the next sample at `(5, 1, 0)` with world linear
velocity `(0, 1, 0)`, the loop emits a relative pose with translation
`(5, 1, 0)` - the absolute position, because the latched `PoseStamped`
is treated as the identity by `pose2np` - and body linear velocity
`(0, 1, 0)`; the emitted translation differs from the `(0, 1, 0)` the
spec requires. -/
theorem claim_C2_scenario_b :
    run none
        [some (⟨⟨5, 0, 0⟩, ⟨0, 0, 0, 1⟩⟩, ⟨⟨0, 1, 0⟩, ⟨0, 0, 0⟩⟩),
         some (⟨⟨5, 1, 0⟩, ⟨0, 0, 0, 1⟩⟩, ⟨⟨0, 1, 0⟩, ⟨0, 0, 0⟩⟩)] =
      (some ⟨"world", "odom_true", ⟨5, 0, 0⟩, ⟨0, 0, 0, 1⟩⟩,
       [Event.staticTransform ⟨"world", "odom_true", ⟨5, 0, 0⟩, ⟨0, 0, 0, 1⟩⟩,
        Event.transformBroadcast ⟨⟨5, 0, 0⟩, ⟨0, 0, 0, 1⟩⟩,
        Event.odometry ⟨⟨5, 0, 0⟩, ⟨0, 0, 0, 1⟩⟩ ⟨⟨0, 1, 0⟩, ⟨0, 0, 0⟩⟩,
        Event.transformBroadcast ⟨⟨5, 1, 0⟩, ⟨0, 0, 0, 1⟩⟩,
        Event.odometry ⟨⟨5, 1, 0⟩, ⟨0, 0, 0, 1⟩⟩ ⟨⟨0, 1, 0⟩, ⟨0, 0, 0⟩⟩]) ∧
      Vec3.mk 5 1 0 ≠ Vec3.mk 0 1 0 := by
  constructor
  · simp only [run, loopIter, latchOf, tbp_poseStamped_identityQ,
      transform_vector_id, List.append_nil, List.nil_append,
      List.cons_append, List.singleton_append]
  · norm_num [Vec3.mk.injEq]

/-- Claim C4 counterexample: a tracking sample whose source angular
velocity is `(1, 2, 3)` is emitted with angular velocity `(0, 0, 3)`,
not passed through unchanged. -/
theorem claim_C4_angular_counterexample :
    odomAngulars (loopIter
        (some ⟨"world", "odom_true", ⟨0, 0, 0⟩, ⟨0, 0, 0, 1⟩⟩)
        (some (⟨⟨0, 0, 0⟩, ⟨0, 0, 0, 1⟩⟩, ⟨⟨0, 0, 0⟩, ⟨1, 2, 3⟩⟩))).2 =
        [⟨0, 0, 3⟩] ∧
      Vec3.mk 0 0 3 ≠ Vec3.mk 1 2 3 := by
  constructor
  · simp [loopIter, odomAngulars_broadcast, odomAngulars_odometry,
      odomAngulars_nil]
  · norm_num [Vec3.mk.injEq]

/-- Claim C4 as amended: for every sample processed while tracking, the
emitted angular velocity is `(0, 0, wz)` - the `z` component of the
source angular velocity with the `x` and `y` components zeroed - rather
than the full source vector. -/
theorem claim_C4_angular_z_only (ist : PoseStamped) (ms : Pose)
    (mtw : Twist) :
    odomAngulars (loopIter (some ist) (some (ms, mtw))).2 =
      [⟨0, 0, mtw.angular.z⟩] := by
  simp [loopIter, odomAngulars_broadcast, odomAngulars_odometry,
    odomAngulars_nil]

/-- Claim C6: the latched reference is written exactly once - at the
first observed sample - and never changes afterwards, and the static
reference announcement is emitted exactly once, at the moment of
latching, carrying the latched pose: over any run from the initial
state, the final latched value is the latch of the first observed
sample and the static announcements are exactly that one latch; from an
already-latched state, no run ever changes the latched value or emits
another announcement. -/
theorem claim_C6_latch_once :
    (∀ L : List (Option (Pose × Twist)),
        (run none L).1 = Option.map latchOf (firstObs L) ∧
          staticEvts (run none L).2 =
            Option.toList (Option.map latchOf (firstObs L))) ∧
      ∀ (p : PoseStamped) (L : List (Option (Pose × Twist))),
        (run (some p) L).1 = some p ∧ staticEvts (run (some p) L).2 = [] := by
  constructor
  · intro L
    induction L with
    | nil => simp [run, firstObs, staticEvts_nil]
    | cons s rest ih =>
        cases s with
        | none =>
            simpa [run, loopIter, firstObs, staticEvts_append,
              staticEvts_nil, staticEvts_broadcast, staticEvts_odometry]
              using ih
        | some s' =>
            obtain ⟨ms, mtw⟩ := s'
            obtain ⟨h1, h2⟩ := run_latched (latchOf ms) rest
            simp [run, loopIter, firstObs, staticEvts_append, staticEvts_nil,
              staticEvts_static, staticEvts_broadcast, staticEvts_odometry,
              h1, h2]
  · exact run_latched

/-- Claim C8: when the configured body name is absent from a sample
batch, the callback fails with the body-not-found error and the engine
state - including the latched reference and the last model state - is
returned unchanged. -/
theorem claim_C8_body_not_found (s : EngineState) (data : ModelStates)
    (h : "puzzlebot" ∉ data.name) :
    callback s data = (s, some CallbackError.bodyNotFound) := by
  have hnone : data.name.indexOf? "puzzlebot" = none := by
    rw [List.indexOf?_eq_none_iff]
    intro x hx
    simp only [beq_iff_eq]
    intro he
    exact h (he ▸ hx)
  simp only [callback, hnone]

/-- Witness for C8: a batch naming only `box` and `ball` makes the
callback report the missing body and leave the fresh engine state
untouched. -/
theorem claim_C8_body_not_found_witness :
    "puzzlebot" ∉ ["box", "ball"] ∧
      callback ⟨none, none, none⟩ ⟨["box", "ball"], [], []⟩ =
        (⟨none, none, none⟩, some CallbackError.bodyNotFound) :=
  ⟨by simp, claim_C8_body_not_found ⟨none, none, none⟩
    ⟨["box", "ball"], [], []⟩ (by simp)⟩

end Claims

end

end RefOdometry
